import Mathlib

/-!
Shallow embedding of the `numsy` descriptive-statistics core
(`numsy/solver/statistics/statistics.py`, `numsy/solver/statistics/_quantiles.py`,
`numsy/solver/errors.py`).

Numbers are modelled as exact rationals (`ℚ`); Python's float arithmetic on the
inputs appearing in this development is exact, so the rational model agrees with
the source.  Python exceptions are modelled with `Except Err`; Python's list
indexing (including negative-index wraparound and `IndexError`) is modelled by
`pyGet`; `int()` truncation by `pyInt`; `round()` half-to-even by `pyRound`.
-/

/-- The statistics-related members of the error taxonomy in `errors.py`, plus the
built-in Python exceptions (`ValueError`, `IndexError`) that the statistics code
can raise. -/
inductive Err where
  | emptyData : Err
  | insufficientData (data_points : ℤ) : Err
  | slicingError (slices : ℤ) (size : ℤ) : Err
  | valueError (msg : String) : Err
  | indexError : Err
deriving DecidableEq, Repr

instance : DecidableEq (Except Err ℚ) := fun
  | .ok a, .ok b =>
    if h : a = b then .isTrue (by rw [h])
    else .isFalse (fun hc => h (Except.ok.inj hc))
  | .ok _, .error _ => .isFalse (fun hc => Except.noConfusion hc)
  | .error _, .ok _ => .isFalse (fun hc => Except.noConfusion hc)
  | .error e, .error f =>
    if h : e = f then .isTrue (by rw [h])
    else .isFalse (fun hc => h (Except.error.inj hc))

instance : DecidableEq (Except Err (List ℚ)) := fun
  | .ok a, .ok b =>
    if h : a = b then .isTrue (by rw [h])
    else .isFalse (fun hc => h (Except.ok.inj hc))
  | .ok _, .error _ => .isFalse (fun hc => Except.noConfusion hc)
  | .error _, .ok _ => .isFalse (fun hc => Except.noConfusion hc)
  | .error e, .error f =>
    if h : e = f then .isTrue (by rw [h])
    else .isFalse (fun hc => h (Except.error.inj hc))

instance : DecidableEq (Except Err (ℚ × ℚ × ℚ)) := fun
  | .ok a, .ok b =>
    if h : a = b then .isTrue (by rw [h])
    else .isFalse (fun hc => h (Except.ok.inj hc))
  | .ok _, .error _ => .isFalse (fun hc => Except.noConfusion hc)
  | .error _, .ok _ => .isFalse (fun hc => Except.noConfusion hc)
  | .error e, .error f =>
    if h : e = f then .isTrue (by rw [h])
    else .isFalse (fun hc => h (Except.error.inj hc))

/-- Python's `int()` applied to a real number: truncation toward zero. -/
def pyInt (q : ℚ) : ℤ :=
  if 0 ≤ q then ⌊q⌋ else -⌊-q⌋

/-- Python's built-in `round()` to an integer: round half to even. -/
def pyRound (q : ℚ) : ℤ :=
  if q - ⌊q⌋ < 1/2 then ⌊q⌋
  else if 1/2 < q - ⌊q⌋ then ⌊q⌋ + 1
  else if ⌊q⌋ % 2 = 0 then ⌊q⌋ else ⌊q⌋ + 1

/-- Python's `data[i]` on a list: indices in `[0, n-1]` are direct, indices in
`[-n, -1]` wrap around from the end, anything else raises `IndexError`. -/
def pyGet (l : List ℚ) (i : ℤ) : Except Err ℚ :=
  if 0 ≤ i ∧ i < l.length then .ok (l.getD i.toNat 0)
  else if i < 0 ∧ 0 ≤ i + l.length then .ok (l.getD (i + l.length).toNat 0)
  else .error .indexError

/-- Type R-1: inverse of the empirical distribution function
(`_quantiles.quantile_r1`). -/
def quantile_r1 (data : List ℚ) (p : ℚ) : Except Err ℚ :=
  pyGet data (pyInt (p * data.length) - 1)

/-- Type R-2: empirical CDF with averaging at discontinuities
(`_quantiles.quantile_r2`).  `slice_ % 1 == 0` in the source tests integrality,
modelled by the rational having denominator 1. -/
def quantile_r2 (data : List ℚ) (p : ℚ) : Except Err ℚ :=
  let slice_ := p * data.length
  let upper := pyInt slice_
  let lower := upper - 1
  if slice_.den = 1 then pyGet data lower
  else do
    let a ← pyGet data lower
    let b ← pyGet data upper
    pure ((a + b) / 2)

/-- Type R-3: nearest observation (`_quantiles.quantile_r3`). -/
def quantile_r3 (data : List ℚ) (p : ℚ) : Except Err ℚ :=
  pyGet data (pyRound (p * data.length) - 1)

/-- Type R-4: linear interpolation of the inverse empirical CDF
(`_quantiles.quantile_r4`). -/
def quantile_r4 (data : List ℚ) (p : ℚ) : Except Err ℚ :=
  let slice_ := p * data.length
  let upper := pyInt slice_
  let lower := upper - 1
  do
    let lo ← pyGet data lower
    let hi ← pyGet data upper
    pure (lo + (slice_ - (pyInt slice_ : ℚ)) * (hi - lo))

/-- Type R-5: piecewise linear function (`_quantiles.quantile_r5`). -/
def quantile_r5 (data : List ℚ) (p : ℚ) : Except Err ℚ :=
  let slice_ := p * data.length + 1/2
  let upper := pyInt slice_
  let lower := upper - 1
  do
    let lo ← pyGet data lower
    let hi ← pyGet data upper
    pure (lo + (slice_ - (pyInt slice_ : ℚ)) * (hi - lo))

/-- Type R-6: linear interpolation of expectations for the uniform distribution
(`_quantiles.quantile_r6`), the container's default method. -/
def quantile_r6 (data : List ℚ) (p : ℚ) : Except Err ℚ :=
  let slice_ := ((data.length : ℚ) + 1) * p
  let upper := pyInt slice_
  let lower := upper - 1
  do
    let lo ← pyGet data lower
    let hi ← pyGet data upper
    pure (lo + (slice_ - (pyInt slice_ : ℚ)) * (hi - lo))

/-- Type R-7: default method of many statistical packages
(`_quantiles.quantile_r7`). -/
def quantile_r7 (data : List ℚ) (p : ℚ) : Except Err ℚ :=
  let slice_ := ((data.length : ℚ) - 1) * p + 1
  let upper := pyInt slice_
  let lower := upper - 1
  do
    let lo ← pyGet data lower
    let hi ← pyGet data upper
    pure (lo + (slice_ - (pyInt slice_ : ℚ)) * (hi - lo))

/-- Type R-8: linear interpolation of approximate medians
(`_quantiles.quantile_r8`). -/
def quantile_r8 (data : List ℚ) (p : ℚ) : Except Err ℚ :=
  let slice_ := ((data.length : ℚ) + 1/3) * p + 1/3
  let upper := pyInt slice_
  let lower := upper - 1
  do
    let lo ← pyGet data lower
    let hi ← pyGet data upper
    pure (lo + (slice_ - (pyInt slice_ : ℚ)) * (hi - lo))

/-- Type R-9: quantiles unbiased for normal distributions
(`_quantiles.quantile_r9`). -/
def quantile_r9 (data : List ℚ) (p : ℚ) : Except Err ℚ :=
  let slice_ := ((data.length : ℚ) + 1/4) * p + 3/8
  let upper := pyInt slice_
  let lower := upper - 1
  do
    let lo ← pyGet data lower
    let hi ← pyGet data upper
    pure (lo + (slice_ - (pyInt slice_ : ℚ)) * (hi - lo))

/-- The closed enumeration of estimator tags (`QuantileEnum` in the source). -/
inductive QuantileEnum where
  | R_1 | R_2 | R_3 | R_4 | R_5 | R_6 | R_7 | R_8 | R_9
deriving DecidableEq, Repr

/-- The `getattr(_quantiles, f"quantile_{method.value}")` tag dispatch. -/
def getQuantileFun (m : QuantileEnum) : List ℚ → ℚ → Except Err ℚ :=
  match m with
  | .R_1 => quantile_r1
  | .R_2 => quantile_r2
  | .R_3 => quantile_r3
  | .R_4 => quantile_r4
  | .R_5 => quantile_r5
  | .R_6 => quantile_r6
  | .R_7 => quantile_r7
  | .R_8 => quantile_r8
  | .R_9 => quantile_r9

/-- Python's `sorted(data)`: an ascending sorted copy. -/
def sortCopy (l : List ℚ) : List ℚ :=
  l.insertionSort (· ≤ ·)

/-- Python's `range(a, b)` on integers, as a list. -/
def pyRange (a b : ℤ) : List ℤ :=
  (List.range (b - a).toNat).map (fun (k : ℕ) => a + (k : ℤ))

/-- Left-to-right effectful map over `Except`, mirroring the accumulation loop
in `Data.quantiles`: the results are appended in order, and the first raised
exception aborts the whole computation. -/
def mapE (f : ℤ → Except Err ℚ) : List ℤ → Except Err (List ℚ)
  | [] => .ok []
  | a :: as =>
    match f a with
    | .error e => .error e
    | .ok b =>
      match mapE f as with
      | .error e => .error e
      | .ok bs => .ok (b :: bs)

/-- The insertion-order list of distinct values of `l`, as produced by iterating
a Python `Counter` built from `l`. -/
def uniqueInOrder (l : List ℚ) : List ℚ :=
  l.foldl (fun acc x => if x ∈ acc then acc else acc ++ [x]) []

/-- Modelled from the spec: Python's `statistics.multimode` — the most frequent
values of the dataset, in first-occurrence order, `[]` on empty input.
(`statistics` is the Python standard library, not part of this repository.) -/
def multimode (l : List ℚ) : List ℚ :=
  let u := uniqueInOrder l
  let maxcount := (u.map (fun v => l.count v)).foldl max 0
  u.filter (fun v => decide (l.count v = maxcount))

namespace Data

/-- `Data.mean`: the arithmetic mean, guarded by the `not_empty` decorator. -/
def mean (l : List ℚ) : Except Err ℚ :=
  if l.length = 0 then .error .emptyData
  else .ok (l.sum / l.length)

/-- `Data.median` (via Python `statistics.median`): sorts a copy; odd length
takes the middle element, even length averages the two middle elements.
Guarded by the `not_empty` decorator. -/
def median (l : List ℚ) : Except Err ℚ :=
  if l.length = 0 then .error .emptyData
  else
    let s := sortCopy l
    let n := l.length
    if n % 2 = 1 then .ok (s.getD (n / 2) 0)
    else .ok ((s.getD (n / 2 - 1) 0 + s.getD (n / 2) 0) / 2)

/-- `Data.median_low` (via Python `statistics.median_low`). -/
def median_low (l : List ℚ) : Except Err ℚ :=
  if l.length = 0 then .error .emptyData
  else
    let s := sortCopy l
    let n := l.length
    if n % 2 = 1 then .ok (s.getD (n / 2) 0)
    else .ok (s.getD (n / 2 - 1) 0)

/-- `Data.median_high` (via Python `statistics.median_high`). -/
def median_high (l : List ℚ) : Except Err ℚ :=
  if l.length = 0 then .error .emptyData
  else .ok ((sortCopy l).getD (l.length / 2) 0)

/-- `Data.mode` (via Python `statistics.mode`): the first most-frequent value in
first-occurrence order.  Guarded by the `not_empty` decorator. -/
def mode (l : List ℚ) : Except Err ℚ :=
  if l.length = 0 then .error .emptyData
  else .ok ((multimode l).headD 0)

/-- `Data.modes` (via Python `statistics.multimode`): NOT guarded by
`not_empty`; returns `[]` on an empty dataset. -/
def modes (l : List ℚ) : List ℚ :=
  multimode l

/-- `Data.range = max(data) - min(data)`, guarded by the `not_empty`
decorator. -/
def range (l : List ℚ) : Except Err ℚ :=
  match l with
  | [] => .error .emptyData
  | x :: xs => .ok (xs.foldl max x - xs.foldl min x)

/-- `Data.quantiles(slices, method)`: the `not_empty` decorator check comes
first, then the `slices <= 1` `ValueError`, then the `slices >= len + 2`
`SlicingError`; on the remaining inputs it loops `i` over `range(1, slices)`
invoking the selected estimator on a sorted copy with `p = i/slices`. -/
def quantiles (l : List ℚ) (slices : ℤ) (method : QuantileEnum) :
    Except Err (List ℚ) :=
  if l.length = 0 then .error .emptyData
  else if slices ≤ 1 then .error (.valueError "Cannot slice 0 times.")
  else if (l.length : ℤ) + 2 ≤ slices then
    .error (.slicingError slices l.length)
  else
    mapE (fun i => getQuantileFun method (sortCopy l) ((i : ℚ) / (slices : ℚ)))
      (pyRange 1 slices)

/-- `math.ceil(n/2)` for a natural `n` (the Python expression divides two
numbers exactly and takes the ceiling). -/
def ceilHalf (n : ℕ) : ℕ := (n + 1) / 2

/-- `math.floor(n/2)` for a natural `n`. -/
def floorHalf (n : ℕ) : ℕ := n / 2

/-- `Data.mean_absolute_deviation(mean=None)`: the source computes
`m = mean or self.mean`, so a supplied mean of `0` is falsy and falls back to
the dataset's own mean, exactly like `None`. -/
def mean_absolute_deviation (l : List ℚ) (mean? : Option ℚ) : Except Err ℚ :=
  if l.length = 0 then .error .emptyData
  else do
    let m ← match mean? with
      | some q => if q = 0 then mean l else pure q
      | none => mean l
    pure ((l.map (fun i => |i - m|)).sum / l.length)

/-- `Data.real_quartiles()`: requires `n ≥ 3` but raises
`InsufficientDataError(data_points=4)`; splits the *stored-order* data — prefix
of length `ceil(n/2)` (even) / `floor(n/2)` (odd) for `Q1`, the whole data for
`Q2`, and the suffix from `ceil(n/2)` for `Q3` — and takes the median of each
part (the median itself sorts its argument). -/
def real_quartiles (l : List ℚ) : Except Err (ℚ × ℚ × ℚ) :=
  if l.length < 3 then .error (.insufficientData 4)
  else do
    let q1 ←
      if l.length % 2 = 0 then median (l.take (ceilHalf l.length))
      else median (l.take (floorHalf l.length))
    let q2 ← median l
    let q3 ← median (l.drop (ceilHalf l.length))
    pure (q1, q2, q3)

/-- `Data.quartile_mean() = (Q1 + Q3) / 2`. -/
def quartile_mean (l : List ℚ) : Except Err ℚ := do
  let (q1, _, q3) ← real_quartiles l
  pure ((q1 + q3) / 2)

/-- `Data.quartile_deviation() = (Q3 - Q1) / 2`. -/
def quartile_deviation (l : List ℚ) : Except Err ℚ := do
  let (q1, _, q3) ← real_quartiles l
  pure ((q3 - q1) / 2)

/-- `Data.expanse() = Q3 - Q1` (the interquartile range). -/
def expanse (l : List ℚ) : Except Err ℚ := do
  let (q1, _, q3) ← real_quartiles l
  pure (q3 - q1)

/-- `Data.average_of_three() = (Q1 + 2*Q2 + Q3) / 4`. -/
def average_of_three (l : List ℚ) : Except Err ℚ := do
  let (q1, q2, q3) ← real_quartiles l
  pure ((q1 + 2 * q2 + q3) / 4)

/-- `Data.tukey_fences()`: recomputes `expanse` twice like the source and
returns the stored-order elements strictly outside
`[Q1 - 1.5*IQR, Q3 + 1.5*IQR]`. -/
def tukey_fences (l : List ℚ) : Except Err (List ℚ) := do
  let (q1, _, q3) ← real_quartiles l
  let e1 ← expanse l
  let lb := q1 - 3/2 * e1
  let e2 ← expanse l
  let ub := q3 + 3/2 * e2
  pure (l.filter (fun x => decide (x < lb) || decide (ub < x)))

end Data

/-- The continuous position `slice_` computed by each estimator on a dataset of
length `n` at probability `p`, read off the source of `_quantiles.py` (for R-1
and R-3 this is the quantity whose truncation/rounding gives the 1-based
rank). -/
def sliceOf (m : QuantileEnum) (n : ℕ) (p : ℚ) : ℚ :=
  match m with
  | .R_1 | .R_2 | .R_3 | .R_4 => p * n
  | .R_5 => p * n + 1/2
  | .R_6 => ((n : ℚ) + 1) * p
  | .R_7 => ((n : ℚ) - 1) * p + 1
  | .R_8 => ((n : ℚ) + 1/3) * p + 1/3
  | .R_9 => ((n : ℚ) + 1/4) * p + 3/8

/-- The 0-based indices at which estimator `m` subscripts a dataset of length
`n` when invoked with probability `p`, in evaluation order, read off the source
of `_quantiles.py`: R-1 and R-3 access a single position, R-2 accesses one or
two depending on whether `slice_` is an integer, and the interpolating
estimators access `lower` then `upper`. -/
def indexList (m : QuantileEnum) (n : ℕ) (p : ℚ) : List ℤ :=
  match m with
  | .R_1 => [pyInt (sliceOf .R_1 n p) - 1]
  | .R_2 =>
    if (sliceOf .R_2 n p).den = 1 then [pyInt (sliceOf .R_2 n p) - 1]
    else [pyInt (sliceOf .R_2 n p) - 1, pyInt (sliceOf .R_2 n p)]
  | .R_3 => [pyRound (sliceOf .R_3 n p) - 1]
  | _ => [pyInt (sliceOf m n p) - 1, pyInt (sliceOf m n p)]

example : Data.quantiles [5, 1, 2, 4, 4, 8] 4 .R_6 = .ok [7/4, 4, 23/4] := by
  with_unfolding_all rfl

example : Data.quantiles [1, 2, 3] 4 .R_6 = .error .indexError := by
  with_unfolding_all rfl

example : Data.quantiles [1] 2 .R_6 = .error .indexError := by
  with_unfolding_all rfl

example : Data.quantiles [1, 2, 3] 4 .R_1 = .ok [3, 1, 2] := by
  with_unfolding_all rfl

example : Data.real_quartiles [1, 2, 3, 4, 5, 6] = .ok (2, 7/2, 5) := by
  with_unfolding_all rfl

example : Data.real_quartiles [3, 1, 2] = .ok (3, 2, 2) := by
  with_unfolding_all rfl

example : multimode [5, 1, 5, 2, 2] = [5, 2] := by with_unfolding_all rfl

example : Data.mean_absolute_deviation [1, 3] (some 0) = .ok 1 := by
  with_unfolding_all rfl

/-! ### Basic facts about the Python primitives -/

theorem pyInt_eq_floor {q : ℚ} (h : 0 ≤ q) : pyInt q = ⌊q⌋ :=
  if_pos h

theorem floor_le_pyRound (q : ℚ) : ⌊q⌋ ≤ pyRound q := by
  unfold pyRound
  split
  · exact le_refl _
  · split
    · exact le_of_lt (lt_add_one _)
    · split
      · exact le_refl _
      · exact le_of_lt (lt_add_one _)

theorem pyRound_le_floor_add_one (q : ℚ) : pyRound q ≤ ⌊q⌋ + 1 := by
  unfold pyRound
  split
  · exact le_of_lt (lt_add_one _)
  · split
    · exact le_refl _
    · split
      · exact le_of_lt (lt_add_one _)
      · exact le_refl _

theorem pyGet_ok {l : List ℚ} {i : ℤ} (h0 : 0 ≤ i) (h1 : i < (l.length : ℤ)) :
    pyGet l i = .ok (l.getD i.toNat 0) := by
  unfold pyGet
  rw [if_pos ⟨h0, h1⟩]

/-! ### Bounds on the continuous positions under the tightened guard -/

theorem slice_form_bounds {a c s i n : ℚ} (hs0 : 0 < s)
    (h1 : s ≤ a * i + c * s) (h2 : a * i + c * s < n * s) :
    1 ≤ a * (i / s) + c ∧ a * (i / s) + c < n := by
  have e : a * (i / s) + c = (a * i + c * s) / s := by
    field_simp
  rw [e]
  exact ⟨(le_div_iff₀ hs0).mpr (by linarith), (div_lt_iff₀ hs0).mpr h2⟩

theorem sliceOf_bounds (m : QuantileEnum) (n : ℕ) (s i : ℤ)
    (hs2 : 2 ≤ s) (hsn : s ≤ (n : ℤ)) (hi1 : 1 ≤ i) (his : i ≤ s - 1) :
    1 ≤ sliceOf m n ((i : ℚ) / (s : ℚ)) ∧
      sliceOf m n ((i : ℚ) / (s : ℚ)) < (n : ℚ) := by
  have hs0 : (0 : ℚ) < (s : ℚ) := by exact_mod_cast lt_of_lt_of_le two_pos hs2
  have hs2Q : (2 : ℚ) ≤ (s : ℚ) := by exact_mod_cast hs2
  have hsnQ : (s : ℚ) ≤ (n : ℚ) := by exact_mod_cast hsn
  have hi1Q : (1 : ℚ) ≤ (i : ℚ) := by exact_mod_cast hi1
  have hisQ : (i : ℚ) ≤ (s : ℚ) - 1 := by
    have h := his
    have : ((i : ℤ) : ℚ) ≤ ((s - 1 : ℤ) : ℚ) := by exact_mod_cast h
    push_cast at this
    linarith
  have hn2 : (2 : ℚ) ≤ (n : ℚ) := le_trans hs2Q hsnQ
  cases m with
  | R_1 =>
    have h := slice_form_bounds (a := (n : ℚ)) (c := 0) (i := (i : ℚ))
      (n := (n : ℚ)) hs0 (by nlinarith) (by nlinarith)
    simpa [sliceOf, mul_comm] using h
  | R_2 =>
    have h := slice_form_bounds (a := (n : ℚ)) (c := 0) (i := (i : ℚ))
      (n := (n : ℚ)) hs0 (by nlinarith) (by nlinarith)
    simpa [sliceOf, mul_comm] using h
  | R_3 =>
    have h := slice_form_bounds (a := (n : ℚ)) (c := 0) (i := (i : ℚ))
      (n := (n : ℚ)) hs0 (by nlinarith) (by nlinarith)
    simpa [sliceOf, mul_comm] using h
  | R_4 =>
    have h := slice_form_bounds (a := (n : ℚ)) (c := 0) (i := (i : ℚ))
      (n := (n : ℚ)) hs0 (by nlinarith) (by nlinarith)
    simpa [sliceOf, mul_comm] using h
  | R_5 =>
    have h := slice_form_bounds (a := (n : ℚ)) (c := 1/2) (i := (i : ℚ))
      (n := (n : ℚ)) hs0 (by nlinarith) (by nlinarith)
    simpa [sliceOf, mul_comm] using h
  | R_6 =>
    have h := slice_form_bounds (a := (n : ℚ) + 1) (c := 0) (i := (i : ℚ))
      (n := (n : ℚ)) hs0 (by nlinarith) (by nlinarith)
    simpa [sliceOf] using h
  | R_7 =>
    have h := slice_form_bounds (a := (n : ℚ) - 1) (c := 1) (i := (i : ℚ))
      (n := (n : ℚ)) hs0 (by nlinarith) (by nlinarith)
    simpa [sliceOf] using h
  | R_8 =>
    have h := slice_form_bounds (a := (n : ℚ) + 1/3) (c := 1/3) (i := (i : ℚ))
      (n := (n : ℚ)) hs0 (by nlinarith) (by nlinarith)
    simpa [sliceOf] using h
  | R_9 =>
    have h := slice_form_bounds (a := (n : ℚ) + 1/4) (c := 3/8) (i := (i : ℚ))
      (n := (n : ℚ)) hs0 (by nlinarith) (by nlinarith)
    simpa [sliceOf] using h

theorem floor_bounds_of_slice {S : ℚ} {n : ℕ} (h1 : 1 ≤ S) (h2 : S < (n : ℚ)) :
    1 ≤ ⌊S⌋ ∧ ⌊S⌋ < (n : ℤ) :=
  ⟨Int.le_floor.mpr (by exact_mod_cast h1), Int.floor_lt.mpr (by exact_mod_cast h2)⟩

theorem indexList_bounds (m : QuantileEnum) (n : ℕ) (s i : ℤ)
    (hs2 : 2 ≤ s) (hsn : s ≤ (n : ℤ)) (hi1 : 1 ≤ i) (his : i ≤ s - 1) :
    ∀ idx ∈ indexList m n ((i : ℚ) / (s : ℚ)), 0 ≤ idx ∧ idx < (n : ℤ) := by
  obtain ⟨hb1, hb2⟩ := sliceOf_bounds m n s i hs2 hsn hi1 his
  have h0 : 0 ≤ sliceOf m n ((i : ℚ) / (s : ℚ)) := le_trans zero_le_one hb1
  obtain ⟨hf1, hf2⟩ := floor_bounds_of_slice hb1 hb2
  have hpy : pyInt (sliceOf m n ((i : ℚ) / (s : ℚ)))
      = ⌊sliceOf m n ((i : ℚ) / (s : ℚ))⌋ := pyInt_eq_floor h0
  have hr1 : ⌊sliceOf m n ((i : ℚ) / (s : ℚ))⌋
      ≤ pyRound (sliceOf m n ((i : ℚ) / (s : ℚ))) := floor_le_pyRound _
  have hr2 : pyRound (sliceOf m n ((i : ℚ) / (s : ℚ)))
      ≤ ⌊sliceOf m n ((i : ℚ) / (s : ℚ))⌋ + 1 := pyRound_le_floor_add_one _
  intro idx hidx
  cases m with
  | R_1 =>
    simp only [indexList, List.mem_cons, List.not_mem_nil, or_false] at hidx
    subst hidx; omega
  | R_2 =>
    simp only [indexList] at hidx
    split at hidx <;>
      simp only [List.mem_cons, List.not_mem_nil, or_false] at hidx
    · subst hidx; omega
    · rcases hidx with rfl | rfl <;> omega
  | R_3 =>
    simp only [indexList, List.mem_cons, List.not_mem_nil, or_false] at hidx
    subst hidx; omega
  | R_4 =>
    simp only [indexList, List.mem_cons, List.not_mem_nil, or_false] at hidx
    rcases hidx with rfl | rfl <;> omega
  | R_5 =>
    simp only [indexList, List.mem_cons, List.not_mem_nil, or_false] at hidx
    rcases hidx with rfl | rfl <;> omega
  | R_6 =>
    simp only [indexList, List.mem_cons, List.not_mem_nil, or_false] at hidx
    rcases hidx with rfl | rfl <;> omega
  | R_7 =>
    simp only [indexList, List.mem_cons, List.not_mem_nil, or_false] at hidx
    rcases hidx with rfl | rfl <;> omega
  | R_8 =>
    simp only [indexList, List.mem_cons, List.not_mem_nil, or_false] at hidx
    rcases hidx with rfl | rfl <;> omega
  | R_9 =>
    simp only [indexList, List.mem_cons, List.not_mem_nil, or_false] at hidx
    rcases hidx with rfl | rfl <;> omega

/-! ### Success of the estimators on in-range indices -/

theorem interp_do_ok (l : List ℚ) (S : ℚ) (h1 : 1 ≤ S) (h2 : S < (l.length : ℚ)) :
    ∃ y, (do
      let lo ← pyGet l (pyInt S - 1)
      let hi ← pyGet l (pyInt S)
      pure (lo + (S - (pyInt S : ℚ)) * (hi - lo)) : Except Err ℚ) = .ok y := by
  have h0 : (0 : ℚ) ≤ S := le_trans zero_le_one h1
  obtain ⟨hf1, hf2⟩ := floor_bounds_of_slice h1 h2
  have g1 := pyGet_ok (l := l) (i := ⌊S⌋ - 1) (by omega) (by omega)
  have g2 := pyGet_ok (l := l) (i := ⌊S⌋) (by omega) (by omega)
  rw [pyInt_eq_floor h0, g1, g2]
  exact ⟨_, rfl⟩

theorem getQuantileFun_ok (m : QuantileEnum) (l : List ℚ) (s i : ℤ)
    (hs2 : 2 ≤ s) (hsn : s ≤ (l.length : ℤ)) (hi1 : 1 ≤ i) (his : i ≤ s - 1) :
    ∃ y, getQuantileFun m l ((i : ℚ) / (s : ℚ)) = .ok y := by
  obtain ⟨hb1, hb2⟩ := sliceOf_bounds m l.length s i hs2 hsn hi1 his
  have h0 : 0 ≤ sliceOf m l.length ((i : ℚ) / (s : ℚ)) := le_trans zero_le_one hb1
  obtain ⟨hf1, hf2⟩ := floor_bounds_of_slice hb1 hb2
  cases m with
  | R_1 =>
    simp only [sliceOf] at h0 hf1 hf2
    simp only [getQuantileFun, quantile_r1]
    rw [pyInt_eq_floor h0]
    exact ⟨_, pyGet_ok (by omega) (by omega)⟩
  | R_2 =>
    simp only [sliceOf] at h0 hf1 hf2
    simp only [getQuantileFun, quantile_r2]
    rw [pyInt_eq_floor h0]
    split
    · exact ⟨_, pyGet_ok (by omega) (by omega)⟩
    · have g1 := pyGet_ok (l := l) (i := ⌊(i : ℚ) / (s : ℚ) * (l.length : ℚ)⌋ - 1)
        (by omega) (by omega)
      have g2 := pyGet_ok (l := l) (i := ⌊(i : ℚ) / (s : ℚ) * (l.length : ℚ)⌋)
        (by omega) (by omega)
      rw [g1, g2]
      exact ⟨_, rfl⟩
  | R_3 =>
    simp only [sliceOf] at h0 hf1 hf2
    have hr1 := floor_le_pyRound ((i : ℚ) / (s : ℚ) * (l.length : ℚ))
    have hr2 := pyRound_le_floor_add_one ((i : ℚ) / (s : ℚ) * (l.length : ℚ))
    simp only [getQuantileFun, quantile_r3]
    exact ⟨_, pyGet_ok (by omega) (by omega)⟩
  | R_4 =>
    simp only [sliceOf] at hb1 hb2
    simp only [getQuantileFun, quantile_r4]
    exact interp_do_ok l _ hb1 hb2
  | R_5 =>
    simp only [sliceOf] at hb1 hb2
    simp only [getQuantileFun, quantile_r5]
    exact interp_do_ok l _ hb1 hb2
  | R_6 =>
    simp only [sliceOf] at hb1 hb2
    simp only [getQuantileFun, quantile_r6]
    exact interp_do_ok l _ hb1 hb2
  | R_7 =>
    simp only [sliceOf] at hb1 hb2
    simp only [getQuantileFun, quantile_r7]
    exact interp_do_ok l _ hb1 hb2
  | R_8 =>
    simp only [sliceOf] at hb1 hb2
    simp only [getQuantileFun, quantile_r8]
    exact interp_do_ok l _ hb1 hb2
  | R_9 =>
    simp only [sliceOf] at hb1 hb2
    simp only [getQuantileFun, quantile_r9]
    exact interp_do_ok l _ hb1 hb2

/-! ### The slicing loop -/

theorem mapE_ok (f : ℤ → Except Err ℚ) :
    ∀ (L : List ℤ), (∀ a ∈ L, ∃ b, f a = .ok b) →
    ∃ bs, mapE f L = .ok bs ∧ bs.length = L.length ∧
      ∀ (j : ℕ) (hj : j < L.length) (hj' : j < bs.length),
        f (L.get ⟨j, hj⟩) = .ok (bs.get ⟨j, hj'⟩) := by
  intro L
  induction L with
  | nil =>
    intro _
    exact ⟨[], rfl, rfl, fun j hj _ => absurd hj (Nat.not_lt_zero j)⟩
  | cons a as ih =>
    intro h
    obtain ⟨b, hb⟩ := h a (List.mem_cons_self a as)
    obtain ⟨bs, hbs, hlen, hget⟩ := ih (fun x hx => h x (List.mem_cons_of_mem a hx))
    refine ⟨b :: bs, ?_, by simp [hlen], ?_⟩
    · unfold mapE
      rw [hb, hbs]
    · intro j hj hj'
      cases j with
      | zero => simpa using hb
      | succ k =>
        simp only [List.get_cons_succ]
        exact hget k (by simpa using hj) (by simpa using hj')

theorem pyRange_length (a b : ℤ) : (pyRange a b).length = (b - a).toNat := by
  rw [pyRange, List.length_map, List.length_range]

theorem pyRange_get (a b : ℤ) (j : ℕ) (hj : j < (pyRange a b).length) :
    (pyRange a b).get ⟨j, hj⟩ = a + j := by
  simp only [pyRange, List.get_eq_getElem, List.getElem_map, List.getElem_range]

theorem mem_pyRange {x a b : ℤ} (hx : x ∈ pyRange a b) : a ≤ x ∧ x < b := by
  unfold pyRange at hx
  rw [List.mem_map] at hx
  obtain ⟨k, hk, rfl⟩ := hx
  rw [List.mem_range] at hk
  omega

theorem sortCopy_perm (l : List ℚ) : (sortCopy l).Perm l :=
  List.perm_insertionSort _ l

theorem sortCopy_length (l : List ℚ) : (sortCopy l).length = l.length :=
  (sortCopy_perm l).length_eq

theorem sortCopy_sorted (l : List ℚ) : (sortCopy l).Sorted (· ≤ ·) :=
  List.sorted_insertionSort _ l

theorem sortCopy_eq_of_perm {l l' : List ℚ} (h : l.Perm l') :
    sortCopy l = sortCopy l' :=
  List.eq_of_perm_of_sorted (((sortCopy_perm l).trans h).trans (sortCopy_perm l').symm)
    (sortCopy_sorted l) (sortCopy_sorted l')

theorem quantiles_ok (l : List ℚ) (s : ℤ) (m : QuantileEnum)
    (hs2 : 2 ≤ s) (hsn : s ≤ (l.length : ℤ)) :
    ∃ ys, Data.quantiles l s m = .ok ys ∧ (ys.length : ℤ) = s - 1 ∧
      ∀ (j : ℕ) (hj : j < ys.length),
        getQuantileFun m (sortCopy l) (((j : ℚ) + 1) / (s : ℚ)) = .ok (ys.get ⟨j, hj⟩) := by
  have hlen : ¬ l.length = 0 := by omega
  have hnot1 : ¬ s ≤ 1 := by omega
  have hnot2 : ¬ ((l.length : ℤ) + 2 ≤ s) := by omega
  have hall : ∀ a ∈ pyRange 1 s,
      ∃ b, getQuantileFun m (sortCopy l) ((a : ℚ) / (s : ℚ)) = .ok b := by
    intro a ha
    obtain ⟨ha1, ha2⟩ := mem_pyRange ha
    exact getQuantileFun_ok m (sortCopy l) s a hs2
      (by rw [sortCopy_length]; exact hsn) ha1 (by omega)
  obtain ⟨bs, hbs, hlenbs, hget⟩ := mapE_ok _ _ hall
  refine ⟨bs, ?_, ?_, ?_⟩
  · unfold Data.quantiles
    rw [if_neg hlen, if_neg hnot1, if_neg hnot2]
    exact hbs
  · rw [hlenbs, pyRange_length]
    omega
  · intro j hj
    have hj2 : j < (pyRange 1 s).length := by
      rw [hlenbs] at hj
      exact hj
    have h := hget j hj2 hj
    rw [pyRange_get] at h
    have e : (((1 : ℤ) + (j : ℕ) : ℤ) : ℚ) = (j : ℚ) + 1 := by
      push_cast
      ring
    rw [e] at h
    exact h

/-! ### Medians and the quartile split -/

theorem median_ok (l : List ℚ) (h : ¬ l.length = 0) : ∃ q, Data.median l = .ok q := by
  simp only [Data.median]
  rw [if_neg h]
  split
  · exact ⟨_, rfl⟩
  · exact ⟨_, rfl⟩

theorem real_quartiles_err (l : List ℚ) (h : l.length < 3) :
    Data.real_quartiles l = .error (.insufficientData 4) := by
  unfold Data.real_quartiles
  rw [if_pos h]

theorem real_quartiles_ok (l : List ℚ) (h3 : 3 ≤ l.length) :
    ∃ t, Data.real_quartiles l = .ok t := by
  have hnot : ¬ l.length < 3 := by omega
  obtain ⟨q2, hq2⟩ := median_ok l (by omega)
  obtain ⟨q3, hq3⟩ := median_ok (l.drop (Data.ceilHalf l.length)) (by
    rw [List.length_drop]
    unfold Data.ceilHalf
    omega)
  by_cases hpar : l.length % 2 = 0
  · obtain ⟨q1, hq1⟩ := median_ok (l.take (Data.ceilHalf l.length)) (by
      rw [List.length_take]
      unfold Data.ceilHalf
      omega)
    refine ⟨(q1, q2, q3), ?_⟩
    unfold Data.real_quartiles
    rw [if_neg hnot, if_pos hpar, hq1, hq2, hq3]
    rfl
  · obtain ⟨q1, hq1⟩ := median_ok (l.take (Data.floorHalf l.length)) (by
      rw [List.length_take]
      unfold Data.floorHalf
      omega)
    refine ⟨(q1, q2, q3), ?_⟩
    unfold Data.real_quartiles
    rw [if_neg hnot, if_neg hpar, hq1, hq2, hq3]
    rfl

/-! ### The multimode characterization -/

theorem uniqueInOrder_aux (l : List ℚ) : ∀ (acc : List ℚ) (v : ℚ),
    v ∈ l.foldl (fun acc x => if x ∈ acc then acc else acc ++ [x]) acc
      ↔ v ∈ acc ∨ v ∈ l := by
  induction l with
  | nil =>
    intro acc v
    simp
  | cons x xs ih =>
    intro acc v
    simp only [List.foldl_cons]
    by_cases h : x ∈ acc
    · rw [if_pos h, ih]
      simp only [List.mem_cons]
      constructor
      · rintro (h1 | h1)
        · exact Or.inl h1
        · exact Or.inr (Or.inr h1)
      · rintro (h1 | h1 | h1)
        · exact Or.inl h1
        · subst h1
          exact Or.inl h
        · exact Or.inr h1
    · rw [if_neg h, ih]
      simp only [List.mem_append, List.mem_cons, List.mem_singleton]
      tauto

theorem mem_uniqueInOrder (l : List ℚ) (v : ℚ) : v ∈ uniqueInOrder l ↔ v ∈ l := by
  unfold uniqueInOrder
  rw [uniqueInOrder_aux]
  simp

theorem le_foldl_max (l : List ℕ) : ∀ b : ℕ, b ≤ l.foldl max b := by
  induction l with
  | nil => exact fun b => le_refl b
  | cons x xs ih => exact fun b => le_trans (le_max_left b x) (ih (max b x))

theorem mem_le_foldl_max {a : ℕ} : ∀ (l : List ℕ), a ∈ l → ∀ b : ℕ, a ≤ l.foldl max b := by
  intro l
  induction l with
  | nil => intro h; cases h
  | cons x xs ih =>
    intro h b
    rcases List.mem_cons.mp h with rfl | h1
    · exact le_trans (le_max_right b a) (le_foldl_max xs (max b a))
    · exact ih h1 (max b x)

theorem foldl_max_mem : ∀ (l : List ℕ) (b : ℕ), l.foldl max b = b ∨ l.foldl max b ∈ l := by
  intro l
  induction l with
  | nil => exact fun b => Or.inl rfl
  | cons x xs ih =>
    intro b
    rw [List.foldl_cons]
    rcases ih (max b x) with h | h
    · rw [h]
      rcases max_choice b x with h2 | h2
      · exact Or.inl h2
      · rw [h2]
        exact Or.inr (List.mem_cons_self x xs)
    · exact Or.inr (List.mem_cons_of_mem x h)

theorem mem_multimode (l : List ℚ) (v : ℚ) :
    v ∈ multimode l ↔ v ∈ l ∧ ∀ w ∈ l, l.count w ≤ l.count v := by
  unfold multimode
  simp only [List.mem_filter, decide_eq_true_eq, mem_uniqueInOrder]
  constructor
  · rintro ⟨hv, hc⟩
    refine ⟨hv, fun w hw => ?_⟩
    have hmem : l.count w ∈ (uniqueInOrder l).map (fun u => l.count u) :=
      List.mem_map.mpr ⟨w, (mem_uniqueInOrder l w).mpr hw, rfl⟩
    have h := mem_le_foldl_max _ hmem 0
    omega
  · rintro ⟨hv, hall⟩
    refine ⟨hv, ?_⟩
    have h1 : l.count v ∈ (uniqueInOrder l).map (fun u => l.count u) :=
      List.mem_map.mpr ⟨v, (mem_uniqueInOrder l v).mpr hv, rfl⟩
    have h2 := mem_le_foldl_max _ h1 0
    have hv1 : 0 < l.count v := List.count_pos_iff.mpr hv
    rcases foldl_max_mem ((uniqueInOrder l).map fun u => l.count u) 0 with h3 | h3
    · omega
    · obtain ⟨w, hw, hwe⟩ := List.mem_map.mp h3
      have h4 := hall w ((mem_uniqueInOrder l w).mp hw)
      omega

/-! ### Claim theorems -/

/-- C1: the claimed bounds safety fails on the code.  Under the container's own
guard `1 < slices < n + 2` (here `n = 3`, `slices = 4`, both inequalities
recorded), the default R-6 estimator at `p = 3/4` computes `slice_ = 4 * 3/4 =
3`, subscripts position `3 = n`, and the whole `quantiles` call escapes with an
`IndexError`; so the estimators do index at/above `n`.  The second component
shows the intended property is exactly off-by-one in the guard: under the
tightened guard `slices < n + 1` every position subscripted by each of the nine
estimators at `p = i/slices` lies inside `[0, n-1]`, and every estimator call
succeeds. -/
theorem c1_bounds_safety :
    ((1 : ℤ) < 4 ∧ (4 : ℤ) < 3 + 2
      ∧ Data.quantiles [1, 2, 3] 4 .R_6 = .error .indexError
      ∧ quantile_r6 [1, 2, 3] (3/4) = .error .indexError
      ∧ pyInt (((3 : ℚ) + 1) * (3/4)) = 3
      ∧ pyGet [1, 2, 3] 3 = .error .indexError)
    ∧ (∀ (l : List ℚ) (s i : ℤ) (m : QuantileEnum),
        2 ≤ s → s ≤ (l.length : ℤ) → 1 ≤ i → i ≤ s - 1 →
        (∀ idx ∈ indexList m l.length ((i : ℚ) / (s : ℚ)),
            0 ≤ idx ∧ idx < (l.length : ℤ))
          ∧ ∃ y, getQuantileFun m (sortCopy l) ((i : ℚ) / (s : ℚ)) = .ok y) := by
  constructor
  · refine ⟨by norm_num, by norm_num, ?_, ?_, ?_, ?_⟩ <;> with_unfolding_all rfl
  · intro l s i m hs2 hsn hi1 his
    refine ⟨indexList_bounds m l.length s i hs2 hsn hi1 his, ?_⟩
    exact getQuantileFun_ok m (sortCopy l) s i hs2
      (by rw [sortCopy_length]; exact hsn) hi1 his

/-- Witness for C1's quantified component, at `l = [1,2,3,4]`, `slices = 4`,
`i = 2`, method R-6. -/
theorem c1_bounds_safety_witness :
    (∀ idx ∈ indexList .R_6 [(1 : ℚ), 2, 3, 4].length ((2 : ℚ) / (4 : ℚ)),
        0 ≤ idx ∧ idx < ([(1 : ℚ), 2, 3, 4].length : ℤ))
      ∧ ∃ y, getQuantileFun .R_6 (sortCopy [(1 : ℚ), 2, 3, 4]) ((2 : ℚ) / (4 : ℚ)) = .ok y :=
  c1_bounds_safety.2 [1, 2, 3, 4] 4 2 .R_6 (by norm_num) (by decide)
    (by norm_num) (by norm_num)

/-- C2: the quartile split of `real_quartiles()`.  For `n ≥ 3` the result is
`(Q1, Q2, Q3)` with `Q1` the median of the prefix of length `⌈n/2⌉` (even `n`)
resp. `⌊n/2⌋` (odd `n`), `Q2` the median of the whole stored-order dataset and
`Q3` the median of the suffix starting at `⌈n/2⌉` regardless of parity; the
four reference datasets evaluate as the spec states, and the unsorted example
`[3,1,2]` confirms the data is used in stored order without sorting. -/
theorem c2_quartile_split :
    (∀ l : List ℚ, 3 ≤ l.length →
      ∃ q1 q2 q3, Data.real_quartiles l = .ok (q1, q2, q3)
        ∧ (l.length % 2 = 0 →
            Data.median (l.take ((l.length + 1) / 2)) = .ok q1)
        ∧ (l.length % 2 = 1 →
            Data.median (l.take (l.length / 2)) = .ok q1)
        ∧ Data.median l = .ok q2
        ∧ Data.median (l.drop ((l.length + 1) / 2)) = .ok q3)
    ∧ Data.real_quartiles [1, 2, 3, 4, 5, 6] = .ok (2, 7/2, 5)
    ∧ Data.real_quartiles [1, 2, 3, 4, 5, 6, 7] = .ok (2, 4, 6)
    ∧ Data.real_quartiles [1, 2, 3, 4, 5, 6, 7, 8] = .ok (5/2, 9/2, 13/2)
    ∧ Data.real_quartiles [1, 2, 3, 4, 5, 6, 7, 8, 9] = .ok (5/2, 5, 15/2)
    ∧ Data.real_quartiles [3, 1, 2] = .ok (3, 2, 2) := by
  refine ⟨?_, ?_, ?_, ?_, ?_, ?_⟩
  · intro l h3
    have hnot : ¬ l.length < 3 := by omega
    obtain ⟨q2, hq2⟩ := median_ok l (by omega)
    obtain ⟨q3, hq3⟩ := median_ok (l.drop ((l.length + 1) / 2)) (by
      rw [List.length_drop]
      omega)
    by_cases hpar : l.length % 2 = 0
    · obtain ⟨q1, hq1⟩ := median_ok (l.take ((l.length + 1) / 2)) (by
        rw [List.length_take]
        omega)
      refine ⟨q1, q2, q3, ?_, fun _ => hq1, fun hodd => absurd hodd (by omega),
        hq2, hq3⟩
      unfold Data.real_quartiles Data.ceilHalf
      rw [if_neg hnot, if_pos hpar, hq1, hq2, hq3]
      rfl
    · obtain ⟨q1, hq1⟩ := median_ok (l.take (l.length / 2)) (by
        rw [List.length_take]
        omega)
      refine ⟨q1, q2, q3, ?_, fun heven => absurd heven (by omega), fun _ => hq1,
        hq2, hq3⟩
      unfold Data.real_quartiles Data.ceilHalf Data.floorHalf
      rw [if_neg hnot, if_neg hpar, hq1, hq2, hq3]
      rfl
  all_goals with_unfolding_all rfl

/-- Witness for C2's quantified component, at the dataset `[1,2,3]`. -/
theorem c2_quartile_split_witness :
    ∃ q1 q2 q3, Data.real_quartiles [(1 : ℚ), 2, 3] = .ok (q1, q2, q3) := by
  obtain ⟨q1, q2, q3, h, -⟩ := c2_quartile_split.1 [1, 2, 3] (by decide)
  exact ⟨q1, q2, q3, h⟩

/-- C3: the quantiles success path.  The three reference datasets produce the
values the spec states under the default R-6 estimator, and the data is sorted
ascending into a copy first.  The quantified component establishes the success
path for every dataset, method, and `1 < slices < n + 1`: exactly `slices - 1`
values, the `j`-th (0-based) being the selected estimator applied to the sorted
copy at `p = (j+1)/slices`.  The final component shows the success claim fails
on the code's actual guard `slices < n + 2`: at `n = 2`, `slices = 3` (which
the guard admits) the default estimator raises `IndexError` instead of
returning two values. -/
theorem c3_quantiles_success_path :
    Data.quantiles [5, 1, 2, 4, 4, 8] 4 .R_6 = .ok [7/4, 4, 23/4]
    ∧ Data.quantiles [1, 9, 6, 3, 4, 6, 2] 4 .R_6 = .ok [2, 4, 6]
    ∧ Data.quantiles [5, 3, 2, 4, 6, 3, 1, 5, 5] 4 .R_6 = .ok [5/2, 4, 5]
    ∧ sortCopy [5, 1, 2, 4, 4, 8] = [1, 2, 4, 4, 5, 8]
    ∧ (∀ (l : List ℚ) (s : ℤ) (m : QuantileEnum), 2 ≤ s → s ≤ (l.length : ℤ) →
        ∃ ys, Data.quantiles l s m = .ok ys ∧ (ys.length : ℤ) = s - 1 ∧
          ∀ (j : ℕ) (hj : j < ys.length),
            getQuantileFun m (sortCopy l) (((j : ℚ) + 1) / (s : ℚ))
              = .ok (ys.get ⟨j, hj⟩))
    ∧ ((1 : ℤ) < 3 ∧ (3 : ℤ) < 2 + 2
        ∧ Data.quantiles [1, 2] 3 .R_6 = .error .indexError) := by
  refine ⟨?_, ?_, ?_, ?_, fun l s m hs2 hsn => quantiles_ok l s m hs2 hsn,
    by norm_num, by norm_num, ?_⟩ <;> with_unfolding_all rfl

/-- Witness for C3's quantified component, at `l = [4,2,6,8]`, `slices = 4`,
method R-6. -/
theorem c3_quantiles_success_path_witness :
    ∃ ys, Data.quantiles [(4 : ℚ), 2, 6, 8] 4 .R_6 = .ok ys
      ∧ (ys.length : ℤ) = 4 - 1 ∧
      ∀ (j : ℕ) (hj : j < ys.length),
        getQuantileFun .R_6 (sortCopy [(4 : ℚ), 2, 6, 8]) (((j : ℚ) + 1) / (4 : ℚ))
          = .ok (ys.get ⟨j, hj⟩) :=
  c3_quantiles_success_path.2.2.2.2.1 [4, 2, 6, 8] 4 .R_6 (by norm_num) (by decide)

/-- C4: the quantiles error protocol.  Empty data fails with `EmptyDataError`
before the other checks (the first component holds for every `slices`, even
`slices ≤ 1` or huge ones); then `slices ≤ 1` raises the generic
`ValueError("Cannot slice 0 times.")`; then `slices ≥ n + 2` raises
`SlicingError(slices, n)`.  The remaining cases succeed only under the
tightened bound `slices ≤ n` (fourth component); the claim's "succeeds in all
remaining cases" fails on the code: the guard admits `n = 1`, `slices = 2`
(`1 < 2 < 1 + 2`), where the default R-6 estimator raises `IndexError`. -/
theorem c4_error_protocol :
    (∀ (s : ℤ) (m : QuantileEnum), Data.quantiles [] s m = .error .emptyData)
    ∧ (∀ (l : List ℚ) (s : ℤ) (m : QuantileEnum), l ≠ [] → s ≤ 1 →
        Data.quantiles l s m = .error (.valueError "Cannot slice 0 times."))
    ∧ (∀ (l : List ℚ) (s : ℤ) (m : QuantileEnum), l ≠ [] →
        (l.length : ℤ) + 2 ≤ s →
        Data.quantiles l s m = .error (.slicingError s l.length))
    ∧ (∀ (l : List ℚ) (s : ℤ) (m : QuantileEnum), 2 ≤ s → s ≤ (l.length : ℤ) →
        ∃ ys, Data.quantiles l s m = .ok ys)
    ∧ ((1 : ℤ) < 2 ∧ (2 : ℤ) < 1 + 2
        ∧ Data.quantiles [1] 2 .R_6 = .error .indexError) := by
  refine ⟨fun s m => rfl, ?_, ?_, ?_, by norm_num, by norm_num, ?_⟩
  · intro l s m hne hs1
    have hlen : ¬ l.length = 0 := by
      simpa [List.length_eq_zero] using hne
    unfold Data.quantiles
    rw [if_neg hlen, if_pos hs1]
  · intro l s m hne hbig
    have hlen : ¬ l.length = 0 := by
      simpa [List.length_eq_zero] using hne
    have hpos : 1 ≤ l.length := by omega
    have hs1 : ¬ s ≤ 1 := by omega
    unfold Data.quantiles
    rw [if_neg hlen, if_neg hs1, if_pos hbig]
  · intro l s m hs2 hsn
    obtain ⟨ys, hys, -, -⟩ := quantiles_ok l s m hs2 hsn
    exact ⟨ys, hys⟩
  · with_unfolding_all rfl

/-- Witness for C4's quantified components, at concrete datasets and slice
counts. -/
theorem c4_error_protocol_witness :
    Data.quantiles ([] : List ℚ) 0 .R_6 = .error .emptyData
    ∧ Data.quantiles [(5 : ℚ)] 1 .R_6 = .error (.valueError "Cannot slice 0 times.")
    ∧ Data.quantiles [(5 : ℚ)] 3 .R_6 = .error (.slicingError 3 ([(5 : ℚ)].length : ℤ))
    ∧ ∃ ys, Data.quantiles [(1 : ℚ), 2, 3] 3 .R_6 = .ok ys :=
  ⟨c4_error_protocol.1 0 .R_6,
    c4_error_protocol.2.1 [5] 1 .R_6 (List.cons_ne_nil 5 []) (by norm_num),
    c4_error_protocol.2.2.1 [5] 3 .R_6 (List.cons_ne_nil 5 []) (by decide),
    c4_error_protocol.2.2.2.1 [1, 2, 3] 3 .R_6 (by norm_num) (by decide)⟩

/-- C5: the preserved `real_quartiles` discrepancy.  For every dataset with
fewer than 3 elements (`n = 0, 1, 2`) the call fails with
`InsufficientDataError` carrying the literal minimum `4`, even though the
enforced precondition is `n ≥ 3`; for every dataset with `n ≥ 3` it
succeeds. -/
theorem c5_insufficient_data_discrepancy :
    (∀ l : List ℚ, l.length < 3 →
      Data.real_quartiles l = .error (.insufficientData 4))
    ∧ (∀ l : List ℚ, 3 ≤ l.length → ∃ t, Data.real_quartiles l = .ok t) :=
  ⟨fun l h => real_quartiles_err l h, fun l h => real_quartiles_ok l h⟩

/-- Witness for C5, at the datasets `[1,2]` (fails with minimum 4) and
`[1,2,3]` (succeeds). -/
theorem c5_insufficient_data_discrepancy_witness :
    Data.real_quartiles [(1 : ℚ), 2] = .error (.insufficientData 4)
    ∧ ∃ t, Data.real_quartiles [(1 : ℚ), 2, 3] = .ok t :=
  ⟨c5_insufficient_data_discrepancy.1 [1, 2] (by norm_num),
    c5_insufficient_data_discrepancy.2 [1, 2, 3] (by norm_num)⟩

/-- C6: the quartile analytics formulas.  Whenever `real_quartiles()` returns
`(Q1, Q2, Q3)`, `quartile_mean` returns `(Q1+Q3)/2`, `quartile_deviation`
returns `(Q3-Q1)/2`, `expanse` returns `Q3-Q1`, `average_of_three` returns
`(Q1+2·Q2+Q3)/4`, and `tukey_fences` returns exactly the stored-order data
elements strictly below `Q1 - 1.5·(Q3-Q1)` or strictly above
`Q3 + 1.5·(Q3-Q1)` (the outliers, not the fence bounds); for `n < 3` each of
the five operations propagates the same `InsufficientDataError(4)`
unchanged. -/
theorem c6_quartile_analytics :
    (∀ (l : List ℚ) (q1 q2 q3 : ℚ), Data.real_quartiles l = .ok (q1, q2, q3) →
      Data.quartile_mean l = .ok ((q1 + q3) / 2)
      ∧ Data.quartile_deviation l = .ok ((q3 - q1) / 2)
      ∧ Data.expanse l = .ok (q3 - q1)
      ∧ Data.average_of_three l = .ok ((q1 + 2 * q2 + q3) / 4)
      ∧ Data.tukey_fences l = .ok (l.filter (fun x =>
          decide (x < q1 - 3/2 * (q3 - q1)) || decide (q3 + 3/2 * (q3 - q1) < x))))
    ∧ (∀ l : List ℚ, l.length < 3 →
        Data.quartile_mean l = .error (.insufficientData 4)
        ∧ Data.quartile_deviation l = .error (.insufficientData 4)
        ∧ Data.expanse l = .error (.insufficientData 4)
        ∧ Data.average_of_three l = .error (.insufficientData 4)
        ∧ Data.tukey_fences l = .error (.insufficientData 4)) := by
  constructor
  · intro l q1 q2 q3 h
    have hexp : Data.expanse l = .ok (q3 - q1) := by
      unfold Data.expanse
      rw [h]
      rfl
    refine ⟨?_, ?_, hexp, ?_, ?_⟩
    · unfold Data.quartile_mean
      rw [h]
      rfl
    · unfold Data.quartile_deviation
      rw [h]
      rfl
    · unfold Data.average_of_three
      rw [h]
      rfl
    · unfold Data.tukey_fences
      rw [h, hexp]
      rfl
  · intro l h
    have herr := real_quartiles_err l h
    refine ⟨?_, ?_, ?_, ?_, ?_⟩
    · unfold Data.quartile_mean
      rw [herr]
      rfl
    · unfold Data.quartile_deviation
      rw [herr]
      rfl
    · unfold Data.expanse
      rw [herr]
      rfl
    · unfold Data.average_of_three
      rw [herr]
      rfl
    · unfold Data.tukey_fences
      rw [herr]
      rfl

/-- Witness for C6, at the dataset `[1,2,3]`, whose quartile triple is
`(1, 2, 3)`. -/
theorem c6_quartile_analytics_witness :
    Data.quartile_mean [(1 : ℚ), 2, 3] = .ok (((1 : ℚ) + 3) / 2)
    ∧ Data.quartile_deviation [(1 : ℚ), 2, 3] = .ok (((3 : ℚ) - 1) / 2)
    ∧ Data.expanse [(1 : ℚ), 2, 3] = .ok ((3 : ℚ) - 1)
    ∧ Data.average_of_three [(1 : ℚ), 2, 3] = .ok (((1 : ℚ) + 2 * 2 + 3) / 4)
    ∧ Data.tukey_fences [(1 : ℚ), 2, 3] = .ok ([(1 : ℚ), 2, 3].filter (fun x =>
        decide (x < 1 - 3/2 * ((3 : ℚ) - 1)) || decide ((3 : ℚ) + 3/2 * ((3 : ℚ) - 1) < x))) :=
  c6_quartile_analytics.1 [1, 2, 3] 1 2 3 (by with_unfolding_all rfl)

/-- C7 counterexample: the claim that a supplied mean of `0` is used fails on
the code.  `mean_absolute_deviation([1,3], mean=0)` returns `1` (the MAD about
the dataset's own mean `2`), not the value `(|1-0| + |3-0|)/2 = 2` the claim
requires for a supplied mean of `0`, because `mean or self.mean` treats the
falsy `0` like an absent argument. -/
theorem c7_mad_zero_mean_counterexample :
    Data.mean_absolute_deviation [1, 3] (some 0) = .ok 1
    ∧ (|(1 : ℚ) - 0| + |(3 : ℚ) - 0|) / 2 = 2
    ∧ (1 : ℚ) ≠ 2 :=
  ⟨by with_unfolding_all rfl, by norm_num, by norm_num⟩

/-- C7 amended: `mean_absolute_deviation` returns `Σ|x − m| / n` where `m` is
the dataset's own mean when no mean is supplied, and the supplied mean when a
*nonzero* mean is supplied; a supplied mean of `0` is falsy in the source's
`mean or self.mean` and is treated exactly like an absent argument; the empty
dataset fails with `EmptyDataError` for every optional argument. -/
theorem c7_mad_amended :
    (∀ l : List ℚ, l ≠ [] →
      Data.mean_absolute_deviation l none
        = .ok ((l.map (fun x => |x - l.sum / l.length|)).sum / l.length))
    ∧ (∀ (l : List ℚ) (m : ℚ), l ≠ [] → m ≠ 0 →
        Data.mean_absolute_deviation l (some m)
          = .ok ((l.map (fun x => |x - m|)).sum / l.length))
    ∧ (∀ l : List ℚ, Data.mean_absolute_deviation l (some 0)
        = Data.mean_absolute_deviation l none)
    ∧ (∀ m? : Option ℚ, Data.mean_absolute_deviation [] m? = .error .emptyData) := by
  refine ⟨?_, ?_, ?_, fun m? => rfl⟩
  · intro l hne
    have hlen : ¬ l.length = 0 := by
      simpa [List.length_eq_zero] using hne
    have hm : Data.mean l = .ok (l.sum / l.length) := by
      unfold Data.mean
      rw [if_neg hlen]
    unfold Data.mean_absolute_deviation
    rw [if_neg hlen, hm]
    rfl
  · intro l m hne hm0
    have hlen : ¬ l.length = 0 := by
      simpa [List.length_eq_zero] using hne
    unfold Data.mean_absolute_deviation
    rw [if_neg hlen]
    simp only [if_neg hm0]
    rfl
  · intro l
    unfold Data.mean_absolute_deviation
    by_cases hlen : l.length = 0
    · rw [if_pos hlen, if_pos hlen]
    · rw [if_neg hlen, if_neg hlen]
      with_unfolding_all rfl

/-- Witness for C7's amended statement, at the dataset `[1,3]` and supplied
nonzero mean `2`. -/
theorem c7_mad_amended_witness :
    Data.mean_absolute_deviation [(1 : ℚ), 3] (some 2)
      = .ok (([(1 : ℚ), 3].map (fun x => |x - 2|)).sum / [(1 : ℚ), 3].length) :=
  c7_mad_amended.2.1 [1, 3] 2 (List.cons_ne_nil (1 : ℚ) [3]) (by norm_num)

/-- C8: the modes asymmetry.  `modes` returns exactly the most-frequent values
(membership characterization), embedded in first-occurrence order (it is a
sublist of the insertion-order list of distinct values), and on the empty
dataset it returns `[]` — while `mean`, `median`, `median_low`, `median_high`,
`mode`, `range` and `mean_absolute_deviation` all fail with `EmptyDataError`
there. -/
theorem c8_modes_asymmetry :
    (∀ (l : List ℚ) (v : ℚ),
      v ∈ Data.modes l ↔ v ∈ l ∧ ∀ w ∈ l, l.count w ≤ l.count v)
    ∧ (∀ l : List ℚ, (Data.modes l).Sublist (uniqueInOrder l))
    ∧ Data.modes ([] : List ℚ) = []
    ∧ Data.mean ([] : List ℚ) = .error .emptyData
    ∧ Data.median ([] : List ℚ) = .error .emptyData
    ∧ Data.median_low ([] : List ℚ) = .error .emptyData
    ∧ Data.median_high ([] : List ℚ) = .error .emptyData
    ∧ Data.mode ([] : List ℚ) = .error .emptyData
    ∧ Data.range ([] : List ℚ) = .error .emptyData
    ∧ (∀ m? : Option ℚ, Data.mean_absolute_deviation [] m? = .error .emptyData) :=
  ⟨fun l v => mem_multimode l v,
    fun l => List.filter_sublist (uniqueInOrder l),
    rfl, rfl, rfl, rfl, rfl, rfl, rfl, fun _ => rfl⟩

/-- Witness for C8's membership characterization: `3` is a mode of
`[3, 3, 4]`. -/
theorem c8_modes_asymmetry_witness : 3 ∈ Data.modes [(3 : ℚ), 3, 4] :=
  (c8_modes_asymmetry.1 [(3 : ℚ), 3, 4] 3).mpr
    (by with_unfolding_all exact of_decide_eq_true rfl)

/-- C9: order-independence of `quantiles` (and purity of the container's
operations, which in this embedding is structural: every operation is a
function of the wrapped list and returns the same result on every call).  For
every pair of datasets that are permutations of each other, every slice count
and every estimator tag, `quantiles` returns identical results, because it
sorts a copy of the data and its guards depend only on the length. -/
theorem c9_quantiles_order_independence :
    ∀ (l l' : List ℚ) (s : ℤ) (m : QuantileEnum), l.Perm l' →
      Data.quantiles l s m = Data.quantiles l' s m := by
  intro l l' s m hperm
  unfold Data.quantiles
  rw [hperm.length_eq, sortCopy_eq_of_perm hperm]

/-- Witness for C9, at the permuted pair `[2,1,3]` and `[1,2,3]` with
`slices = 4` and the default estimator. -/
theorem c9_quantiles_order_independence_witness :
    Data.quantiles [(2 : ℚ), 1, 3] 4 .R_6 = Data.quantiles [(1 : ℚ), 2, 3] 4 .R_6 :=
  c9_quantiles_order_independence [2, 1, 3] [1, 2, 3] 4 .R_6
    (List.Perm.swap 1 2 [3])

/-- C10: the implicit negative-index behavior.  At `n = 3`, `slices = 4`,
`i = 1` (so `p = 1/4`, and the container's guard `1 < 4 < 3 + 2` holds), R-1
and R-4 compute the lower index `int(p*n) - 1 = -1`; subscripting with `-1`
does not fault but reads the last element of the sorted data, so R-1 returns
the largest element `3` and R-4 returns `3/2 = 3 + (3/4)·(1 - 3)`, a value
strictly between the smallest and largest elements, and the enclosing
`quantiles` calls succeed without raising any error. -/
theorem c10_negative_index_behavior :
    ((1 : ℤ) < 4 ∧ (4 : ℤ) < 3 + 2)
    ∧ pyInt ((1/4 : ℚ) * 3) - 1 = -1
    ∧ pyGet [1, 2, 3] (-1) = .ok 3
    ∧ [(1 : ℚ), 2, 3].getLast? = some 3
    ∧ quantile_r1 [1, 2, 3] (1/4) = .ok 3
    ∧ quantile_r4 [1, 2, 3] (1/4) = .ok (3/2)
    ∧ (1 : ℚ) < 3/2 ∧ (3/2 : ℚ) < 3
    ∧ Data.quantiles [1, 2, 3] 4 .R_1 = .ok [3, 1, 2]
    ∧ Data.quantiles [1, 2, 3] 4 .R_4 = .ok [3/2, 3/2, 9/4] := by
  refine ⟨⟨by norm_num, by norm_num⟩, ?_, ?_, ?_, ?_, ?_, by norm_num, by norm_num,
    ?_, ?_⟩ <;> with_unfolding_all rfl
